import Mathlib

/-!
Verification of the financial-report metric-extraction core.

This file shallowly embeds the two extraction modules of the repository:

* `src/data/utils.py` — `safe_float` (the numeric normalizer nested inside
  `extract_important_metrics`) and `extract_important_metrics` (the
  rule-based table-field matcher over the FINDSum record layout);
* `src/utils.py` — `extract_metrics` (the structured-extraction client with
  its exception-to-fallback policy) and `fallback_extraction` (the
  regex-based fallback extractor).

Python floats produced by these modules always come from parsing decimal
literals (no arithmetic is performed on them), so they are modelled as exact
decimal numbers `man * 10 ^ exp` (`DecNum` below), normalised so that equal
values have equal representations.  Python's `float()` applied to the strings
of interest is modelled by `pyFloatChars` (ASCII decimal literals with
optional sign, fraction and exponent; `inf`/`nan` spellings and digit-group
underscores are outside the modelled domain), and `str()` of such a float by
`pyReprStr`.  Fallible Python operations (list indexing) run in `Except`.
-/

namespace FinRep

/-- ASCII decimal digit test, the character class accepted inside numbers. -/
def isDig (c : Char) : Bool := decide (48 ≤ c.toNat ∧ c.toNat ≤ 57)

/-- ASCII whitespace as stripped by Python `float()` around a literal. -/
def isWsB (c : Char) : Bool :=
  decide (c = ' ' ∨ c = '\t' ∨ c = '\n' ∨ c = '\r' ∨ c = '\x0b' ∨ c = '\x0c')

/-- Exact decimal number `man * 10 ^ exp`, the model of a Python float that
was produced by parsing a decimal literal. -/
structure DecNum where
  man : Int
  exp : Int
deriving DecidableEq

/-- Value of a big-endian list of ASCII digit characters. -/
def digitsVal (l : List Char) : Nat :=
  l.foldl (fun a c => 10 * a + (c.toNat - 48)) 0

/-- Remove factors of ten from the mantissa, moving them into the exponent;
`fuel` bounds the number of steps. -/
def normAux (fuel : Nat) (m : Int) (e : Int) : DecNum :=
  match fuel with
  | 0 => ⟨m, e⟩
  | f + 1 => if m % 10 = 0 ∧ m ≠ 0 then normAux f (m / 10) (e + 1) else ⟨m, e⟩

/-- Canonical form of a `DecNum`: zero is `⟨0, 0⟩`, otherwise the mantissa is
not divisible by ten.  `man.natAbs` steps of fuel always suffice. -/
def DecNum.norm (d : DecNum) : DecNum :=
  if d.man = 0 then ⟨0, 0⟩ else normAux d.man.natAbs d.man d.exp

/-- Strip leading and trailing ASCII whitespace, as Python `float()` does. -/
def stripWsL (l : List Char) : List Char :=
  ((l.dropWhile isWsB).reverse.dropWhile isWsB).reverse

/-- Parse the exponent part after `e`/`E`: an optional sign followed by a
nonempty run of digits making up the whole remainder. -/
def parseExpNum (l : List Char) : Option Int :=
  match l with
  | '+' :: r => if r.isEmpty then none
      else if r.all isDig then some ((digitsVal r : Int)) else none
  | '-' :: r => if r.isEmpty then none
      else if r.all isDig then some (-(digitsVal r : Int)) else none
  | r => if r.isEmpty then none
      else if r.all isDig then some ((digitsVal r : Int)) else none

/-- Finish parsing a literal whose mantissa digits `mant` (integer part and
`fplen` fractional digits) are known: the rest must be empty or an
exponent. -/
def expTail (mant : List Char) (fplen : Nat) (rest : List Char) : Option (Nat × Int) :=
  if rest.isEmpty then some (digitsVal mant, -(fplen : Int))
  else if rest.head? = some 'e' ∨ rest.head? = some 'E' then
    match parseExpNum (rest.drop 1) with
    | some ev => some (digitsVal mant, ev - (fplen : Int))
    | none => none
  else none

/-- Parse an unsigned decimal literal `digits [. digits] [(e|E) int]` (at
least one mantissa digit required), returning mantissa value and decimal
exponent. -/
def parseUnsigned (l : List Char) : Option (Nat × Int) :=
  let ip := l.takeWhile isDig
  let r1 := l.dropWhile isDig
  if r1.head? = some '.' then
    let r2 := r1.drop 1
    let fp := r2.takeWhile isDig
    let r3 := r2.dropWhile isDig
    if ip.length + fp.length = 0 then none else expTail (ip ++ fp) fp.length r3
  else
    if ip.length = 0 then none else expTail ip 0 r1

/-- Python `float(s)` on the chars of `s`: strip surrounding whitespace,
read an optional sign, parse an unsigned decimal literal, and normalise.
`none` models the `ValueError` raised on malformed input. -/
def pyFloatChars (l : List Char) : Option DecNum :=
  let t := stripWsL l
  if t.head? = some '+' then
    (parseUnsigned (t.drop 1)).map (fun p => DecNum.norm ⟨(p.1 : Int), p.2⟩)
  else if t.head? = some '-' then
    (parseUnsigned (t.drop 1)).map (fun p => DecNum.norm ⟨-(p.1 : Int), p.2⟩)
  else
    (parseUnsigned t).map (fun p => DecNum.norm ⟨(p.1 : Int), p.2⟩)

/-- Big-endian decimal digit characters of `n`; `fuel ≥ n` suffices. -/
def natDigitsAux (fuel : Nat) (n : Nat) : List Char :=
  match fuel with
  | 0 => []
  | f + 1 => if n = 0 then [] else natDigitsAux f (n / 10) ++ [Char.ofNat (48 + n % 10)]

/-- Decimal digit characters of `n` (empty for `0`). -/
def natDigitChars (n : Nat) : List Char := natDigitsAux n n

/-- Digit rendering of a nonzero `⟨n, e⟩` as Python `str()` lays a float out:
trailing `.0` for integral values, an inserted decimal point otherwise. -/
def reprBody (n : Nat) (e : Int) : List Char :=
  let digs := natDigitChars n
  if 0 ≤ e then digs ++ List.replicate e.toNat '0' ++ '.' :: ['0']
  else
    let t := (-e).toNat
    if t < digs.length then
      digs.take (digs.length - t) ++ '.' :: digs.drop (digs.length - t)
    else
      '0' :: '.' :: (List.replicate (t - digs.length) '0' ++ digs)

/-- Python `str()` of the float modelled by `d` (character list). -/
def pyReprChars (d : DecNum) : List Char :=
  if d.man = 0 then ['0', '.', '0']
  else if d.man < 0 then '-' :: reprBody d.man.natAbs d.exp
  else reprBody d.man.natAbs d.exp

/-- Python `str()` of the float modelled by `d`. -/
def pyReprStr (d : DecNum) : String := String.mk (pyReprChars d)

/-- Python `value.split('&')`: split on every ampersand, keeping empty
fields. -/
def splitOnAmp : List Char → List (List Char)
  | [] => [[]]
  | c :: rest =>
      if c = '&' then [] :: splitOnAmp rest
      else
        match splitOnAmp rest with
        | [] => [[c]]
        | g :: gs => (c :: g) :: gs

/-- Python `value.replace(',', '')`: remove every comma. -/
def stripCommas (l : List Char) : List Char := l.filter (fun c => decide (c ≠ ','))

/-- `safe_float` from `src/data/utils.py`: if the value contains `&`, parse
field 1 of the `&`-split with commas removed, else parse the whole value with
commas removed; `ValueError`/`IndexError` become `none`. -/
def safe_float (value : String) : Option DecNum :=
  let cs := value.toList
  if cs.any (fun c => decide (c = '&')) then
    match (splitOnAmp cs).get? 1 with
    | some seg => pyFloatChars (stripCommas seg)
    | none => none
  else
    pyFloatChars (stripCommas cs)

/-- The numeric candidate string `safe_float` hands to `float()`: field 1 of
the `&`-split (comma-stripped) when an ampersand is present, else the whole
comma-stripped value; `none` models an out-of-range field access. -/
def numCandidate (value : String) : Option (List Char) :=
  let cs := value.toList
  if cs.any (fun c => decide (c = '&')) then
    ((splitOnAmp cs).get? 1).map stripCommas
  else
    some (stripCommas cs)

/-- The candidate that claim C3 describes: everything after the first
ampersand.  Stated from the claim's words, for comparison with the
source-derived `safe_float`. -/
def claimedAmpCandidate (s : String) : List Char :=
  ((s.toList).dropWhile (fun c => decide (c ≠ '&'))).drop 1

/-- The one Python exception kind the embedded table extractor can raise. -/
inductive PyErr where
  | indexError
deriving DecidableEq

/-- Decidable equality of `Except` results, for evaluating the extractor on
concrete inputs. -/
instance {ε α : Type} [DecidableEq ε] [DecidableEq α] : DecidableEq (Except ε α) :=
  fun x y =>
    match x, y with
    | Except.ok a, Except.ok b =>
        if h : a = b then isTrue (by rw [h])
        else isFalse (by intro hh; cases hh; exact h rfl)
    | Except.error a, Except.error b =>
        if h : a = b then isTrue (by rw [h])
        else isFalse (by intro hh; cases hh; exact h rfl)
    | Except.ok _, Except.error _ => isFalse (by intro hh; cases hh)
    | Except.error _, Except.ok _ => isFalse (by intro hh; cases hh)

/-- Python list indexing `l[i]` for nonnegative `i`: `IndexError` when out of
range. -/
def pyGet {α : Type} (l : List α) (i : Nat) : Except PyErr α :=
  match l.get? i with
  | some a => Except.ok a
  | none => Except.error PyErr.indexError

/-- A table row: a list of cell strings (`item` in the source). -/
abbrev Row := List String

/-- A table: an ordered list of rows. -/
abbrev Table := List Row

/-- The metrics dictionary built by `extract_important_metrics`: insertion
ordered, canonical key to optional normalised float. -/
abbrev MetricsMap := List (String × Option DecNum)

/-- The record `data[0]` of the FINDSum input: each field is `some` when the
corresponding key is present in the JSON object. -/
structure FinData where
  mda_liquidity_tables : Option (List Table)
  after_mda_tables : Option (List Table)

/-- Python dict assignment `m[k] = v`: replace in place when the key exists,
else append, preserving insertion order. -/
def insKV {β : Type} (m : List (String × β)) (k : String) (v : β) :
    List (String × β) :=
  if m.any (fun p => decide (p.1 = k)) then
    m.map (fun p => if p.1 = k then (k, v) else p)
  else m ++ [(k, v)]

/-- Python dict lookup `m.get(k)` as an `Option`. -/
def lookupKV {β : Type} (m : List (String × β)) (k : String) : Option β :=
  (m.find? (fun p => decide (p.1 = k))).map (fun p => p.2)

/-- Python substring test `pat in s`. -/
def strContains (s pat : List Char) : Bool :=
  s.tails.any (fun t => pat.isPrefixOf t)

/-- The `elif` chain of a table section as an ordered (substring, canonical
key) rule list; the liquidity-table rules, in source order. -/
def liquidityRules : List (String × String) :=
  [("total identifiable intangible assets", "total_identifiable_intangible_assets"),
   ("trade names", "trade_names"),
   ("developed technology", "developed_technology"),
   ("customer relationships", "customer_relationships")]

/-- Balance-sheet rules, in source order. -/
def balanceRules : List (String × String) :=
  [("total current assets", "current_assets"),
   ("total assets", "total_assets"),
   ("total current liabilities", "current_liabilities"),
   ("total liabilities", "total_liabilities"),
   ("total stockholders equity", "total_stockholders_equity"),
   ("cash and cash equivalents", "cash_and_cash_equivalents"),
   ("inventories", "inventory"),
   ("accounts receivable", "accounts_receivable"),
   ("accounts payable", "accounts_payable"),
   ("goodwill", "goodwill"),
   ("intangible assets net", "intangible_assets"),
   ("long-term debt net of current portion", "long_term_debt")]

/-- Income-statement rules, in source order. -/
def incomeRules : List (String × String) :=
  [("sales", "sales"),
   ("net earnings", "net_earnings"),
   ("basic net earnings per common share", "basic_eps"),
   ("diluted net earnings per common share", "diluted_eps"),
   ("operating earnings", "operating_earnings"),
   ("gross profit", "gross_profit"),
   ("depreciation depletion and amortization", "depreciation_and_amortization")]

/-- Cash-flow rules, in source order. -/
def cashFlowRules : List (String × String) :=
  [("net cash provided by operating activities", "net_cash_operating_activities"),
   ("net cash used in investing activities", "net_cash_investing_activities"),
   ("net cash provided by financing activities", "net_cash_financing_activities")]

/-- First rule (in declaration order) whose substring occurs in the lowered
label; mirrors the `if/elif` chain. -/
def firstMatch (rules : List (String × String)) (label : List Char) : Option String :=
  match rules with
  | [] => none
  | (pat, key) :: rest =>
      if strContains label pat.toList then some key else firstMatch rest label

/-- One loop iteration over a table row: read `item[0]`, lower it, and on the
first matching rule store `safe_float item[2]` under the rule's key. -/
def processRow (rules : List (String × String)) (m : MetricsMap) (item : Row) :
    Except PyErr MetricsMap :=
  match pyGet item 0 with
  | Except.error e => Except.error e
  | Except.ok label =>
      match firstMatch rules (label.toList.map Char.toLower) with
      | some key =>
          match pyGet item 2 with
          | Except.ok v => Except.ok (insKV m key (safe_float v))
          | Except.error e => Except.error e
      | none => Except.ok m

/-- The `for item in table` loop of one section. -/
def processTable (rules : List (String × String)) (m : MetricsMap) :
    Table → Except PyErr MetricsMap
  | [] => Except.ok m
  | item :: rest =>
      match processRow rules m item with
      | Except.ok m2 => processTable rules m2 rest
      | Except.error e => Except.error e

/-- One guarded section: when the key is present, index table `idx` (raising
`IndexError` when the list is too short) and process it; when the key is
absent, leave the metrics unchanged. -/
def tableStep (rules : List (String × String)) (tabs : Option (List Table))
    (idx : Nat) (m : MetricsMap) : Except PyErr MetricsMap :=
  match tabs with
  | some ts =>
      match pyGet ts idx with
      | Except.ok t => processTable rules m t
      | Except.error e => Except.error e
  | none => Except.ok m

/-- `extract_important_metrics` from `src/data/utils.py`: the liquidity
section over `mda_liquidity_tables[0]`, then balance sheet, income statement
and cash flow over `after_mda_tables[0..2]`. -/
def extract_important_metrics (data : List FinData) : Except PyErr MetricsMap :=
  match pyGet data 0 with
  | Except.error e => Except.error e
  | Except.ok d0 =>
      match tableStep liquidityRules d0.mda_liquidity_tables 0 [] with
      | Except.error e => Except.error e
      | Except.ok m1 =>
          match tableStep balanceRules d0.after_mda_tables 0 m1 with
          | Except.error e => Except.error e
          | Except.ok m2 =>
              match tableStep incomeRules d0.after_mda_tables 1 m2 with
              | Except.error e => Except.error e
              | Except.ok m3 => tableStep cashFlowRules d0.after_mda_tables 2 m3

/-- Lookup of a canonical key in a (possibly failed) extraction result. -/
def valueAt (r : Except PyErr MetricsMap) (k : String) : Option (Option DecNum) :=
  match r with
  | Except.ok m => lookupKV m k
  | Except.error _ => none

/-! ## The structured-extraction client and its fallback (`src/utils.py`) -/

/-- A section value of the detailed-outcome mapping, following the shapes the
spec admits for context values: text, a list, a one-level-nested mapping, or
a number.  Only strings may be fed to the regex engine; the others raise
`TypeError` there. -/
inductive SecVal where
  | vstr (s : String)
  | vlist (xs : List String)
  | vmap (m : List (String × String))
  | vnum (n : Int)
deriving DecidableEq

/-- Python truthiness of a section value, as tested by
`if financial_text:`. -/
def SecVal.truthy : SecVal → Bool
  | SecVal.vstr s => decide (s ≠ "")
  | SecVal.vlist xs => decide (xs ≠ [])
  | SecVal.vmap m => decide (m ≠ [])
  | SecVal.vnum n => decide (n ≠ 0)

/-- A value of the result dictionary: a string, a string-to-string mapping
(the metrics), a section mapping (the context), or a non-string section
value passed through unchanged. -/
inductive PyV where
  | vstr (s : String)
  | vdict (d : List (String × String))
  | vsecdict (d : List (String × SecVal))
  | vlistS (xs : List String)
  | vnum (n : Int)
deriving DecidableEq

/-- The unified result dictionary shape of both extraction paths. -/
abbrev PyDict := List (String × PyV)

/-- A section value as it is stored, unchanged, into a result field. -/
def secPy : SecVal → PyV
  | SecVal.vstr s => PyV.vstr s
  | SecVal.vlist xs => PyV.vlistS xs
  | SecVal.vmap m => PyV.vdict m
  | SecVal.vnum n => PyV.vnum n

/-- The detailed-outcome value of an input record: a section dictionary
(section name to section value) or any non-dict value. -/
inductive DetVal where
  | dict (entries : List (String × SecVal))
  | nondict (v : SecVal)
deriving DecidableEq

/-- An input record: each field is `some` when the corresponding top-level
key (`"1. Task outcome (short version)"`, `"2. Task outcome (extremely
detailed version)"`, `"3. Additional context (if relevant)"`) is present. -/
structure Record where
  shortVersion : Option String
  detailedOutcome : Option DetVal
  additionalContext : Option String

/-- The parsed structured reply of the model call (`extracted_data` after
`json.loads`), typed by the `ExtractedData` schema: `metrics` maps schema keys
to optional strings, the remaining fields are read with `.get` defaults. -/
structure Reply where
  metrics : List (String × Option String)
  context : Option (List (String × SecVal))
  competitor : Option String
  contradictions : Option String
  additional_context : Option String

/-- The one exception the fallback extractor itself can raise: `re.search`
on a non-string financial-metrics value. -/
inductive RunErr where
  | typeError
deriving DecidableEq

/-- Character class `[\d\.]` of the margin/ratio patterns. -/
def isNumDotB (c : Char) : Bool := isDig c || decide (c = '.')

/-- Character class `[\d,\.]` of the revenue pattern. -/
def isMilB (c : Char) : Bool := isDig c || decide (c = ',') || decide (c = '.')

/-- The lazy tail `.*?([\d\.]+)` (optionally followed by `%`) of the
margin/ratio patterns: skip non-newline characters until a nonempty
digits-and-dots run (followed by `%` when required) is found. -/
def scanNum (needPct : Bool) : List Char → Option (List Char)
  | [] => none
  | c :: rest =>
      if c = '\n' then none
      else if isNumDotB c then
        let run := List.takeWhile isNumDotB (c :: rest)
        let after := List.dropWhile isNumDotB (c :: rest)
        if needPct then
          if after.head? = some '%' then some run else scanNum needPct rest
        else some run
      else scanNum needPct rest

/-- `re.search` of a pattern `lit.*?([\d\.]+)` (plus optional `%`) over
lowered text: try each occurrence of the literal left to right. -/
def searchLitNum (lit : List Char) (needPct : Bool) : List Char → Option (List Char)
  | [] => none
  | c :: rest =>
      if lit.isPrefixOf (c :: rest) then
        match scanNum needPct (List.drop lit.length (c :: rest)) with
        | some r => some r
        | none => searchLitNum lit needPct rest
      else searchLitNum lit needPct rest

/-- `re.search` of the revenue pattern `\$?([\d,\.]+)\s*million` over lowered
text: at each position, an optional dollar sign, a nonempty run of digits,
commas and dots, optional whitespace, then the literal `million`. -/
def searchMillion : List Char → Option (List Char)
  | [] => none
  | c :: rest =>
      let body := if c = '$' then rest else c :: rest
      let run := List.takeWhile isMilB body
      if run.isEmpty then searchMillion rest
      else
        let after := (List.dropWhile isMilB body).dropWhile isWsB
        if ("million".toList).isPrefixOf after then some run
        else searchMillion rest

/-- The `patterns` loop of `fallback_extraction`: run the five fixed patterns
(case-insensitively, via lowering) against the financial text, storing each
first match under its display key with the per-metric unit formatting. -/
def patternMetrics (t : String) : List (String × String) :=
  let low := t.toList.map Char.toLower
  let m1 : List (String × String) :=
    match searchMillion low with
    | some v => insKV [] "Revenue" ("$" ++ String.mk v ++ " million")
    | none => []
  let m2 :=
    match searchLitNum ("gross profit margin".toList) true low with
    | some v => insKV m1 "Gross Profit Margin" (String.mk v ++ "%")
    | none => m1
  let m3 :=
    match searchLitNum ("net profit margin".toList) true low with
    | some v => insKV m2 "Net Profit Margin" (String.mk v ++ "%")
    | none => m2
  let m4 :=
    match searchLitNum ("debt to equity ratio".toList) false low with
    | some v => insKV m3 "Debt To Equity Ratio" (String.mk v)
    | none => m3
  match searchLitNum ("total debt ratio".toList) false low with
  | some v => insKV m4 "Total Debt Ratio" (String.mk v)
  | none => m4

/-- A section value read with `.get(key, "")` and stored into a result
field unchanged (`extracted_data["competitor"] = detailed_outcome.get(...)`):
the default for an absent key is the empty string. -/
def sectionField (entries : List (String × SecVal)) (k : String) : PyV :=
  match lookupKV entries k with
  | some v => secPy v
  | none => PyV.vstr ""

/-- The `if financial_text:` block of `fallback_extraction`: skipped when the
value is falsy; on a truthy string the five regex patterns run; on a truthy
non-string `re.search` raises `TypeError`. -/
def financialMets (financial_text : SecVal) : Except RunErr (List (String × String)) :=
  if SecVal.truthy financial_text then
    match financial_text with
    | SecVal.vstr s => Except.ok (patternMetrics s)
    | _ => Except.error RunErr.typeError
  else Except.ok []

/-- `fallback_extraction` from `src/utils.py`: deterministic, call-free
extraction; every field defaults to empty mapping/string on absence.  It can
raise (uncaught) in exactly one place: a truthy non-string
`Financial Metrics` section value is handed to `re.search`, a `TypeError`. -/
def fallback_extraction (response : Record) : Except RunErr PyDict :=
  match response.detailedOutcome.getD (DetVal.dict []) with
  | DetVal.dict entries =>
      match financialMets ((lookupKV entries "Financial Metrics").getD (SecVal.vstr "")) with
      | Except.error e => Except.error e
      | Except.ok mets =>
          Except.ok
            [("metrics", PyV.vdict mets),
             ("context", PyV.vsecdict entries),
             ("competitor", sectionField entries "Competitor Analysis"),
             ("contradictions", sectionField entries "Contradictory Analysis"),
             ("additional_context", PyV.vstr (response.additionalContext.getD ""))]
  | DetVal.nondict _ =>
      Except.ok
        [("metrics", PyV.vdict []),
         ("context", PyV.vsecdict []),
         ("competitor", PyV.vstr ""),
         ("contradictions", PyV.vstr ""),
         ("additional_context", PyV.vstr (response.additionalContext.getD ""))]

/-- Python `str.title()` on the schema key after `replace('_', ' ')`. -/
def titleAux (prevCased : Bool) : List Char → List Char
  | [] => []
  | c :: rest =>
      let c2 := if c.isAlpha then (if prevCased then c.toLower else c.toUpper) else c
      c2 :: titleAux c.isAlpha rest

/-- Display-style label of a machine-style schema key:
`replace('_', ' ')` then `title()`. -/
def displayKey (k : String) : String :=
  String.mk (titleAux false (k.toList.map (fun c => if c = '_' then ' ' else c)))

/-- The `formatted_result` built on the success path: metrics re-keyed to
display labels with `None` values dropped, the remaining fields read with
`.get` defaults. -/
def formatReply (r : Reply) : PyDict :=
  [("metrics", PyV.vdict (r.metrics.foldl
      (fun acc kv =>
        match kv.2 with
        | some v => insKV acc (displayKey kv.1) v
        | none => acc) [])),
   ("context", PyV.vsecdict (r.context.getD [])),
   ("competitor", PyV.vstr (r.competitor.getD "")),
   ("contradictions", PyV.vstr (r.contradictions.getD "")),
   ("additional_context", PyV.vstr (r.additional_context.getD ""))]

/-- `extract_metrics` from `src/utils.py`.  The external model call together
with the parsing and formatting of its reply is the opaque `call` argument:
`Except.ok` carries a schema-conforming parsed reply, `Except.error` carries
the message of any exception raised inside the `try` block (transport error,
JSON decode failure, or result formatting).  The `except` handler routes the
whole record to `fallback_extraction`, whose own outcome — including the
uncaught `TypeError` it can raise inside the handler — becomes the call's
outcome; the original failure itself is never surfaced. -/
def extract_metrics (response : Record) (call : Except String Reply) : Except RunErr PyDict :=
  match call with
  | Except.ok r => Except.ok (formatReply r)
  | Except.error _ => fallback_extraction response

/-- The key list of a result dictionary, in insertion order. -/
def keysOf (d : PyDict) : List String := d.map (fun p => p.1)

/-! ## Helper lemmas -/

lemma safe_float_eq_candidate (s : String) :
    safe_float s = (numCandidate s).bind pyFloatChars := by
  unfold safe_float numCandidate
  cases h : s.toList.any (fun c => decide (c = '&')) with
  | true =>
      rw [if_pos h, if_pos h]
      cases hg : (splitOnAmp s.toList).get? 1 with
      | none => rfl
      | some seg => rfl
  | false =>
      have h2 : ¬ (s.toList.any (fun c => decide (c = '&')) = true) := by
        rw [h]; exact Bool.false_ne_true
      rw [if_neg h2, if_neg h2]
      rfl

lemma fm_not_truthy (v : SecVal) (h : SecVal.truthy v = false) :
    financialMets v = Except.ok [] := by
  unfold financialMets
  rw [if_neg (by rw [h]; exact Bool.false_ne_true)]

lemma fm_str (s : String) : ∃ mets, financialMets (SecVal.vstr s) = Except.ok mets := by
  by_cases hs : s = ""
  · subst hs
    exact ⟨[], rfl⟩
  · have ht : SecVal.truthy (SecVal.vstr s) = true := by simp [SecVal.truthy, hs]
    refine ⟨patternMetrics s, ?_⟩
    unfold financialMets
    rw [if_pos ht]

lemma fm_nonstr (v : SecVal) (ht : SecVal.truthy v = true)
    (hns : ∀ s, ¬ v = SecVal.vstr s) :
    financialMets v = Except.error RunErr.typeError := by
  unfold financialMets
  rw [if_pos ht]
  cases v with
  | vstr s => exact absurd rfl (hns s)
  | vlist xs => rfl
  | vmap m => rfl
  | vnum n => rfl

lemma fm_ok_of (v : SecVal)
    (h : SecVal.truthy v = false ∨ ∃ s, v = SecVal.vstr s) :
    ∃ mets, financialMets v = Except.ok mets := by
  rcases h with h | ⟨s, rfl⟩
  · exact ⟨[], fm_not_truthy v h⟩
  · exact fm_str s

lemma fallback_none_eq (sv ac : Option String) :
    fallback_extraction ⟨sv, none, ac⟩ =
      Except.ok
        [("metrics", PyV.vdict []), ("context", PyV.vsecdict []),
         ("competitor", PyV.vstr ""), ("contradictions", PyV.vstr ""),
         ("additional_context", PyV.vstr (ac.getD ""))] := rfl

lemma fallback_nondict_eq (sv ac : Option String) (v : SecVal) :
    fallback_extraction ⟨sv, some (DetVal.nondict v), ac⟩ =
      Except.ok
        [("metrics", PyV.vdict []), ("context", PyV.vsecdict []),
         ("competitor", PyV.vstr ""), ("contradictions", PyV.vstr ""),
         ("additional_context", PyV.vstr (ac.getD ""))] := rfl

lemma fallback_dict_red (sv ac : Option String) (entries : List (String × SecVal)) :
    fallback_extraction ⟨sv, some (DetVal.dict entries), ac⟩ =
      (match financialMets ((lookupKV entries "Financial Metrics").getD (SecVal.vstr "")) with
       | Except.error e => Except.error e
       | Except.ok mets =>
           Except.ok
             [("metrics", PyV.vdict mets), ("context", PyV.vsecdict entries),
              ("competitor", sectionField entries "Competitor Analysis"),
              ("contradictions", sectionField entries "Contradictory Analysis"),
              ("additional_context", PyV.vstr (ac.getD ""))]) := rfl

lemma fallback_dict_ok_eq (sv ac : Option String) (entries : List (String × SecVal))
    (mets : List (String × String))
    (h : financialMets ((lookupKV entries "Financial Metrics").getD (SecVal.vstr ""))
        = Except.ok mets) :
    fallback_extraction ⟨sv, some (DetVal.dict entries), ac⟩ =
      Except.ok
        [("metrics", PyV.vdict mets), ("context", PyV.vsecdict entries),
         ("competitor", sectionField entries "Competitor Analysis"),
         ("contradictions", sectionField entries "Contradictory Analysis"),
         ("additional_context", PyV.vstr (ac.getD ""))] := by
  rw [fallback_dict_red]
  simp only [h]

lemma fallback_dict_err_eq (sv ac : Option String) (entries : List (String × SecVal))
    (h : financialMets ((lookupKV entries "Financial Metrics").getD (SecVal.vstr ""))
        = Except.error RunErr.typeError) :
    fallback_extraction ⟨sv, some (DetVal.dict entries), ac⟩ =
      Except.error RunErr.typeError := by
  rw [fallback_dict_red]
  simp only [h]

lemma firstMatch_append_of_none (pre rest : List (String × String)) (lab : List Char)
    (h : ∀ p ∈ pre, strContains lab p.1.toList = false) :
    firstMatch (pre ++ rest) lab = firstMatch rest lab := by
  induction pre with
  | nil => rfl
  | cons q pre ih =>
      obtain ⟨pat, key⟩ := q
      have hq : strContains lab pat.toList = false := h (pat, key) (List.mem_cons_self _ _)
      simp only [List.cons_append, firstMatch, hq, Bool.false_eq_true, if_false]
      exact ih (fun p hp => h p (List.mem_cons_of_mem _ hp))

lemma firstMatch_of_all_none (rules : List (String × String)) (lab : List Char)
    (h : ∀ p ∈ rules, strContains lab p.1.toList = false) :
    firstMatch rules lab = none := by
  have := firstMatch_append_of_none rules [] lab h
  simpa using this

lemma map_replace_of_absent {β : Type} (m : List (String × β)) (k : String) (v : β)
    (h : m.any (fun p => decide (p.1 = k)) = false) :
    m.map (fun p => if p.1 = k then (k, v) else p) = m := by
  induction m with
  | nil => rfl
  | cons q t ih =>
      simp only [List.any_cons, Bool.or_eq_false_iff] at h
      have hq : ¬ q.1 = k := by simpa using h.1
      simp [hq, ih h.2]

lemma map_replace_replace {β : Type} (m : List (String × β)) (k : String) (v1 v2 : β) :
    (m.map (fun p => if p.1 = k then (k, v1) else p)).map
        (fun p => if p.1 = k then (k, v2) else p) =
      m.map (fun p => if p.1 = k then (k, v2) else p) := by
  induction m with
  | nil => rfl
  | cons q t ih =>
      by_cases hq : q.1 = k <;> simp [hq, ih]

lemma any_map_replace {β : Type} (m : List (String × β)) (k : String) (v : β) :
    (m.map (fun p => if p.1 = k then (k, v) else p)).any (fun p => decide (p.1 = k)) =
      m.any (fun p => decide (p.1 = k)) := by
  induction m with
  | nil => rfl
  | cons q t ih =>
      by_cases hq : q.1 = k <;> simp [hq, ih]

lemma insKV_override {β : Type} (m : List (String × β)) (k : String) (v1 v2 : β) :
    insKV (insKV m k v1) k v2 = insKV m k v2 := by
  cases ha : m.any (fun p => decide (p.1 = k)) with
  | true =>
      simp only [insKV, ha, if_true]
      rw [any_map_replace m k v1]
      simp only [ha, if_true]
      exact map_replace_replace m k v1 v2
  | false =>
      simp only [insKV, ha, Bool.false_eq_true, if_false]
      have hap : (m ++ [(k, v1)]).any (fun p => decide (p.1 = k)) = true := by
        simp [List.any_append]
      simp only [hap, if_true, List.map_append]
      rw [map_replace_of_absent m k v2 ha]
      simp

/-! ## Digit values and digit characters -/

lemma dv_foldl_from (l : List Char) :
    ∀ a : Nat, l.foldl (fun a c => 10 * a + (c.toNat - 48)) a =
      a * 10 ^ l.length + digitsVal l := by
  induction l with
  | nil => intro a; simp [digitsVal]
  | cons c t ih =>
      intro a
      have h1 := ih (10 * a + (c.toNat - 48))
      have h2 := ih (10 * 0 + (c.toNat - 48))
      simp only [List.foldl_cons, digitsVal] at *
      rw [h1, h2]
      simp only [List.length_cons]
      ring

lemma dv_append (l1 l2 : List Char) :
    digitsVal (l1 ++ l2) = digitsVal l1 * 10 ^ l2.length + digitsVal l2 := by
  unfold digitsVal
  rw [List.foldl_append]
  exact dv_foldl_from l2 _

lemma dv_replicate_zero (k : Nat) : digitsVal (List.replicate k '0') = 0 := by
  induction k with
  | zero => rfl
  | succ k ih =>
      show digitsVal ('0' :: List.replicate k '0') = 0
      unfold digitsVal at *
      simp only [List.foldl_cons]
      have h : (10 * 0 + ('0'.toNat - 48)) = 0 := by decide
      rw [h]
      exact ih

lemma dv_zeros_prefix (k : Nat) (l : List Char) :
    digitsVal (List.replicate k '0' ++ l) = digitsVal l := by
  rw [dv_append, dv_replicate_zero]
  simp

lemma char_ofNat_digit (m : Nat) (h : m < 10) : (Char.ofNat (48 + m)).toNat = 48 + m := by
  interval_cases m <;> decide

lemma isDig_ofNat_digit (m : Nat) (h : m < 10) : isDig (Char.ofNat (48 + m)) = true := by
  interval_cases m <;> decide

lemma nda_val (fuel : Nat) : ∀ n : Nat, n ≤ fuel → digitsVal (natDigitsAux fuel n) = n := by
  induction fuel with
  | zero =>
      intro n hn
      have h0 : n = 0 := Nat.le_zero.mp hn
      subst h0
      rfl
  | succ f ih =>
      intro n hn
      by_cases h0 : n = 0
      · subst h0; simp [natDigitsAux, digitsVal]
      · have hrec : n / 10 ≤ f := by
          have := Nat.div_lt_self (Nat.pos_of_ne_zero h0) (by norm_num : 1 < 10)
          omega
        have hm : n % 10 < 10 := Nat.mod_lt _ (by norm_num)
        simp only [natDigitsAux, h0, if_false]
        rw [dv_append, ih (n / 10) hrec]
        have hc : digitsVal [Char.ofNat (48 + n % 10)] = n % 10 := by
          unfold digitsVal
          simp only [List.foldl_cons, List.foldl_nil]
          rw [char_ofNat_digit _ hm]
          omega
        rw [hc]
        simp only [List.length_cons, List.length_nil, pow_one]
        omega

lemma nda_digits (fuel : Nat) : ∀ n c, c ∈ natDigitsAux fuel n → isDig c = true := by
  induction fuel with
  | zero => intro n c hc; simp [natDigitsAux] at hc
  | succ f ih =>
      intro n c hc
      by_cases h0 : n = 0
      · subst h0; simp [natDigitsAux] at hc
      · simp only [natDigitsAux, h0, if_false, List.mem_append, List.mem_singleton] at hc
        rcases hc with hc | hc
        · exact ih _ c hc
        · subst hc
          exact isDig_ofNat_digit _ (Nat.mod_lt _ (by norm_num))

lemma nda_ne_nil (fuel n : Nat) (h0 : n ≠ 0) (hf : n ≤ fuel) : natDigitsAux fuel n ≠ [] := by
  cases fuel with
  | zero => omega
  | succ f =>
      simp only [natDigitsAux, h0, if_false]
      exact fun h => by simpa using congrArg List.length h

lemma ndc_val (n : Nat) : digitsVal (natDigitChars n) = n := nda_val n n le_rfl

lemma ndc_digits (n : Nat) : ∀ c ∈ natDigitChars n, isDig c = true :=
  fun c hc => nda_digits n n c hc

lemma ndc_ne_nil (n : Nat) (h0 : n ≠ 0) : natDigitChars n ≠ [] := nda_ne_nil n n h0 le_rfl

/-! ## Character-class facts -/

lemma isDig_not_ws {c : Char} (h : isDig c = true) : isWsB c = false := by
  have hb : 48 ≤ c.toNat ∧ c.toNat ≤ 57 := of_decide_eq_true h
  unfold isWsB
  apply decide_eq_false
  rintro (rfl | rfl | rfl | rfl | rfl | rfl) <;> revert hb <;> decide

lemma isDig_ne_plus {c : Char} (h : isDig c = true) : ¬ c = '+' := by
  rintro rfl; exact absurd h (by decide)

lemma isDig_ne_minus {c : Char} (h : isDig c = true) : ¬ c = '-' := by
  rintro rfl; exact absurd h (by decide)

lemma isDig_ne_dot {c : Char} (h : isDig c = true) : ¬ c = '.' := by
  rintro rfl; exact absurd h (by decide)

lemma isDig_ne_comma {c : Char} (h : isDig c = true) : ¬ c = ',' := by
  rintro rfl; exact absurd h (by decide)

lemma isDig_ne_amp {c : Char} (h : isDig c = true) : ¬ c = '&' := by
  rintro rfl; exact absurd h (by decide)

/-! ## takeWhile / dropWhile over structured lists -/

lemma tw_cons_neg {p : Char → Bool} {c : Char} (l : List Char) (h : p c = false) :
    List.takeWhile p (c :: l) = [] := by
  simp [List.takeWhile_cons, h]

lemma dw_cons_neg {p : Char → Bool} {c : Char} (l : List Char) (h : p c = false) :
    List.dropWhile p (c :: l) = c :: l := by
  simp [List.dropWhile_cons, h]

lemma tw_all_append {p : Char → Bool} (l1 l2 : List Char)
    (h : ∀ c ∈ l1, p c = true) :
    List.takeWhile p (l1 ++ l2) = l1 ++ List.takeWhile p l2 := by
  induction l1 with
  | nil => rfl
  | cons c t ih =>
      have hc : p c = true := h c (List.mem_cons_self _ _)
      simp only [List.cons_append, List.takeWhile_cons, hc, if_true]
      rw [ih (fun x hx => h x (List.mem_cons_of_mem _ hx))]

lemma dw_all_append {p : Char → Bool} (l1 l2 : List Char)
    (h : ∀ c ∈ l1, p c = true) :
    List.dropWhile p (l1 ++ l2) = List.dropWhile p l2 := by
  induction l1 with
  | nil => rfl
  | cons c t ih =>
      have hc : p c = true := h c (List.mem_cons_self _ _)
      simp only [List.cons_append, List.dropWhile_cons, hc, if_true]
      exact ih (fun x hx => h x (List.mem_cons_of_mem _ hx))

lemma tw_all {p : Char → Bool} (l : List Char) (h : ∀ c ∈ l, p c = true) :
    List.takeWhile p l = l := by
  have := tw_all_append l [] h
  simpa using this

lemma dw_all {p : Char → Bool} (l : List Char) (h : ∀ c ∈ l, p c = true) :
    List.dropWhile p l = [] := by
  have := dw_all_append l [] h
  simpa using this

lemma dw_id {p : Char → Bool} (l : List Char) (h : ∀ c ∈ l, p c = false) :
    List.dropWhile p l = l := by
  cases l with
  | nil => rfl
  | cons c t => exact dw_cons_neg t (h c (List.mem_cons_self _ _))

lemma strip_id (l : List Char) (h : ∀ c ∈ l, isWsB c = false) : stripWsL l = l := by
  unfold stripWsL
  rw [dw_id l h, dw_id l.reverse (fun c hc => h c (List.mem_reverse.mp hc)),
    List.reverse_reverse]

/-! ## Normalisation -/

lemma normAux_stop (fuel : Nat) (m e : Int) (h : ¬ (m % 10 = 0 ∧ m ≠ 0)) :
    normAux fuel m e = ⟨m, e⟩ := by
  cases fuel with
  | zero => rfl
  | succ f => simp only [normAux, h, if_false]

lemma normAux_pow (k : Nat) :
    ∀ (fuel : Nat) (m e : Int), m ≠ 0 → ¬ (10 ∣ m) → k ≤ fuel →
      normAux fuel (m * 10 ^ k) e = ⟨m, e + k⟩ := by
  induction k with
  | zero =>
      intro fuel m e hm hd _
      have hmod : ¬ (m % 10 = 0 ∧ m ≠ 0) := by
        rintro ⟨h1, _⟩
        exact hd (Int.dvd_iff_emod_eq_zero.mpr h1)
      simp only [pow_zero, mul_one, Nat.cast_zero, add_zero]
      exact normAux_stop fuel m e hmod
  | succ k ih =>
      intro fuel m e hm hd hf
      obtain ⟨f, rfl⟩ : ∃ f, fuel = f + 1 := ⟨fuel - 1, by omega⟩
      have hpow : m * 10 ^ (k + 1) = (m * 10 ^ k) * 10 := by ring
      have hdvd : (m * 10 ^ (k + 1)) % 10 = 0 := by
        rw [hpow]
        exact Int.mul_emod_left (m * 10 ^ k) 10
      have hne : m * 10 ^ (k + 1) ≠ 0 :=
        mul_ne_zero hm (pow_ne_zero _ (by norm_num))
      simp only [normAux, hdvd, hne, ne_eq, not_false_eq_true, and_self, if_true]
      have hdiv : m * 10 ^ (k + 1) / 10 = m * 10 ^ k := by
        rw [hpow]
        exact Int.mul_ediv_cancel _ (by norm_num)
      rw [hdiv, ih f m (e + 1) hm hd (by omega)]
      congr 1
      push_cast
      ring

lemma norm_of_not_dvd (m e : Int) (hm : m ≠ 0) (hd : ¬ (10 ∣ m)) :
    DecNum.norm ⟨m, e⟩ = ⟨m, e⟩ := by
  unfold DecNum.norm
  simp only [hm, if_false]
  apply normAux_stop
  rintro ⟨h1, _⟩
  exact hd (Int.dvd_iff_emod_eq_zero.mpr h1)

lemma norm_eq (m : Int) (k : Nat) (e : Int) (hm : m ≠ 0) (hd : ¬ (10 ∣ m)) :
    DecNum.norm ⟨m * 10 ^ k, e⟩ = ⟨m, e + k⟩ := by
  have hne : m * 10 ^ k ≠ 0 := mul_ne_zero hm (pow_ne_zero _ (by norm_num))
  unfold DecNum.norm
  simp only [hne, if_false]
  apply normAux_pow k _ m e hm hd
  have h1 : (m * 10 ^ k).natAbs = m.natAbs * 10 ^ k := by
    rw [Int.natAbs_mul, Int.natAbs_pow]
    rfl
  have h2 : k < 10 ^ k := Nat.lt_pow_self (by norm_num) k
  have h3 : 1 ≤ m.natAbs := Int.natAbs_pos.mpr hm
  calc k ≤ 10 ^ k := by omega
    _ ≤ m.natAbs * 10 ^ k := Nat.le_mul_of_pos_left _ (by omega)
    _ = (m * 10 ^ k).natAbs := h1.symm

lemma int_dec_aux (bound : Nat) :
    ∀ m : Int, m.natAbs ≤ bound → m ≠ 0 →
      ∃ (k : Nat) (m' : Int), m' ≠ 0 ∧ ¬ (10 ∣ m') ∧ m = m' * 10 ^ k := by
  induction bound with
  | zero =>
      intro m hb hm
      exact absurd (Int.natAbs_eq_zero.mp (Nat.le_zero.mp hb)) hm
  | succ b ih =>
      intro m hb hm
      by_cases hd : (10 : Int) ∣ m
      · obtain ⟨t, rfl⟩ := hd
        have ht : t ≠ 0 := fun h => hm (by rw [h, mul_zero])
        have htb : t.natAbs ≤ b := by
          have h1 : (10 * t).natAbs = 10 * t.natAbs := by
            rw [Int.natAbs_mul]; rfl
          have h2 : 1 ≤ t.natAbs := Int.natAbs_pos.mpr ht
          omega
        obtain ⟨k, m', hm', hd', heq⟩ := ih t htb ht
        exact ⟨k + 1, m', hm', hd', by rw [heq]; ring⟩
      · exact ⟨0, m, hm, hd, by ring⟩

lemma int_dec (m : Int) (hm : m ≠ 0) :
    ∃ (k : Nat) (m' : Int), m' ≠ 0 ∧ ¬ (10 ∣ m') ∧ m = m' * 10 ^ k :=
  int_dec_aux m.natAbs m le_rfl hm

lemma norm_idem (d : DecNum) : DecNum.norm (DecNum.norm d) = DecNum.norm d := by
  obtain ⟨ma, ex⟩ := d
  by_cases hm : ma = 0
  · subst hm
    rfl
  · obtain ⟨k, m', hm', hd', heq⟩ := int_dec ma hm
    rw [heq, norm_eq m' k ex hm' hd', norm_of_not_dvd m' (ex + k) hm' hd']

lemma norm_fix_zero (d : DecNum) (hfix : DecNum.norm d = d) (hm : d.man = 0) :
    d = ⟨0, 0⟩ := by
  obtain ⟨ma, ex⟩ := d
  simp only at hm
  subst hm
  rw [← hfix]
  rfl

lemma norm_fix_not_dvd (d : DecNum) (hfix : DecNum.norm d = d) (hm : d.man ≠ 0) :
    ¬ (10 ∣ d.man) := by
  obtain ⟨ma, ex⟩ := d
  simp only at hm ⊢
  obtain ⟨k, m', hm', hd', heq⟩ := int_dec ma hm
  rw [heq, norm_eq m' k ex hm' hd', DecNum.mk.injEq] at hfix
  obtain ⟨h1, h2⟩ := hfix
  have hk : k = 0 := by
    have hz : (k : Int) = 0 := by omega
    exact_mod_cast hz
  subst hk
  rw [heq]
  simpa using hd'

lemma pyF_norm (l : List Char) (d : DecNum) (h : pyFloatChars l = some d) :
    DecNum.norm d = d := by
  simp only [pyFloatChars] at h
  split at h
  · obtain ⟨p, _, heq⟩ := Option.map_eq_some'.mp h
    rw [← heq, norm_idem]
  · split at h <;>
      · obtain ⟨p, _, heq⟩ := Option.map_eq_some'.mp h
        rw [← heq, norm_idem]

lemma safe_float_norm (s : String) (d : DecNum) (h : safe_float s = some d) :
    DecNum.norm d = d := by
  rw [safe_float_eq_candidate] at h
  obtain ⟨c, _, hc⟩ := Option.bind_eq_some.mp h
  exact pyF_norm c d hc

/-! ## Parsing the printed form back -/

lemma rep_zero_digit (k : Nat) : ∀ c ∈ List.replicate k '0', isDig c = true :=
  fun c hc => by rw [List.eq_of_mem_replicate hc]; decide

lemma parseUnsigned_shape (ipL fpL : List Char)
    (hne : ipL ≠ [] ∨ fpL ≠ [])
    (hip : ∀ c ∈ ipL, isDig c = true)
    (hfp : ∀ c ∈ fpL, isDig c = true) :
    parseUnsigned (ipL ++ '.' :: fpL) =
      some (digitsVal (ipL ++ fpL), -(fpL.length : Int)) := by
  have htw : List.takeWhile isDig (ipL ++ '.' :: fpL) = ipL := by
    rw [tw_all_append ipL _ hip, tw_cons_neg fpL (by decide)]
    simp
  have hdw : List.dropWhile isDig (ipL ++ '.' :: fpL) = '.' :: fpL := by
    rw [dw_all_append ipL _ hip]
    exact dw_cons_neg fpL (by decide)
  have hlen : ¬ (ipL.length + fpL.length = 0) := by
    rcases hne with h | h
    · have := List.length_pos.mpr h
      omega
    · have := List.length_pos.mpr h
      omega
  simp only [parseUnsigned, htw, hdw, List.head?_cons, if_true, List.drop_succ_cons,
    List.drop_zero, tw_all fpL hfp, dw_all fpL hfp]
  rw [if_neg hlen]
  simp [expTail]

lemma parse_reprBody (n : Nat) (e : Int) (hn : n ≠ 0) :
    ∃ k : Nat, parseUnsigned (reprBody n e) = some (n * 10 ^ k, e - (k : Int)) := by
  have hdig := ndc_digits n
  unfold reprBody
  by_cases he : 0 ≤ e
  · refine ⟨e.toNat + 1, ?_⟩
    rw [if_pos he]
    have hip : ∀ c ∈ natDigitChars n ++ List.replicate e.toNat '0', isDig c = true := by
      intro c hc
      rcases List.mem_append.mp hc with h | h
      · exact hdig c h
      · exact rep_zero_digit _ c h
    have hipne : natDigitChars n ++ List.replicate e.toNat '0' ≠ [] := by
      intro hcontra
      exact ndc_ne_nil n hn (List.append_eq_nil.mp hcontra).1
    rw [parseUnsigned_shape _ ['0'] (Or.inl hipne) hip
      (fun c hc => by rw [List.mem_singleton.mp hc]; decide)]
    have hval : digitsVal ((natDigitChars n ++ List.replicate e.toNat '0') ++ ['0']) =
        n * 10 ^ (e.toNat + 1) := by
      rw [dv_append, dv_append, ndc_val, dv_replicate_zero]
      have h0 : digitsVal ['0'] = 0 := by decide
      rw [h0]
      simp only [List.length_replicate, List.length_cons, List.length_nil]
      ring
    rw [hval]
    have hcast : (e.toNat : Int) = e := Int.toNat_of_nonneg he
    have hexp : -(((['0'] : List Char).length : Nat) : Int) = e - ((e.toNat + 1 : Nat) : Int) := by
      simp only [List.length_cons, List.length_nil]
      push_cast
      omega
    rw [hexp]
  · have ht1 : (1 : Int) ≤ -e := by omega
    have hcast : (((-e).toNat : Nat) : Int) = -e := Int.toNat_of_nonneg (by omega)
    by_cases hlt : (-e).toNat < (natDigitChars n).length
    · refine ⟨0, ?_⟩
      rw [if_neg he, if_pos hlt]
      have hipne : (natDigitChars n).take ((natDigitChars n).length - (-e).toNat) ≠ [] := by
        intro hcontra
        have := congrArg List.length hcontra
        simp only [List.length_take, List.length_nil] at this
        omega
      rw [parseUnsigned_shape _ _ (Or.inl hipne)
        (fun c hc => hdig c (List.take_subset _ _ hc))
        (fun c hc => hdig c (List.drop_subset _ _ hc))]
      rw [List.take_append_drop, ndc_val]
      have hlen : ((((natDigitChars n).drop ((natDigitChars n).length - (-e).toNat)).length : Nat) : Int)
          = -e := by
        rw [List.length_drop]
        have : (natDigitChars n).length - ((natDigitChars n).length - (-e).toNat) = (-e).toNat := by
          omega
        rw [this]
        exact hcast
      rw [hlen]
      have : -(-e) = e - ((0 : Nat) : Int) := by push_cast; omega
      rw [this]
      simp
    · refine ⟨0, ?_⟩
      rw [if_neg he, if_neg hlt]
      have hfp : ∀ c ∈ List.replicate ((-e).toNat - (natDigitChars n).length) '0' ++ natDigitChars n,
          isDig c = true := by
        intro c hc
        rcases List.mem_append.mp hc with h | h
        · exact rep_zero_digit _ c h
        · exact hdig c h
      have hshape := parseUnsigned_shape ['0']
        (List.replicate ((-e).toNat - (natDigitChars n).length) '0' ++ natDigitChars n)
        (Or.inl (by intro h; cases h))
        (fun c hc => by rw [List.mem_singleton.mp hc]; decide) hfp
      have hbody : (['0'] : List Char) ++ '.' ::
          (List.replicate ((-e).toNat - (natDigitChars n).length) '0' ++ natDigitChars n) =
          '0' :: '.' :: (List.replicate ((-e).toNat - (natDigitChars n).length) '0' ++ natDigitChars n) := rfl
      rw [hbody] at hshape
      rw [hshape]
      have hval : digitsVal ((['0'] : List Char) ++
          (List.replicate ((-e).toNat - (natDigitChars n).length) '0' ++ natDigitChars n)) = n := by
        have h1 : (['0'] : List Char) ++
            (List.replicate ((-e).toNat - (natDigitChars n).length) '0' ++ natDigitChars n) =
            List.replicate (((-e).toNat - (natDigitChars n).length) + 1) '0' ++ natDigitChars n := by
          rw [List.replicate_succ]
          rfl
        rw [h1, dv_zeros_prefix, ndc_val]
      rw [hval]
      have hlen : (((List.replicate ((-e).toNat - (natDigitChars n).length) '0' ++
          natDigitChars n).length : Nat) : Int) = -e := by
        rw [List.length_append, List.length_replicate]
        have hge : (natDigitChars n).length ≤ (-e).toNat := by omega
        have : ((-e).toNat - (natDigitChars n).length) + (natDigitChars n).length = (-e).toNat := by
          omega
        rw [this]
        exact hcast
      rw [hlen]
      have : -(-e) = e - ((0 : Nat) : Int) := by push_cast; omega
      rw [this]
      simp

lemma reprBody_mem (n : Nat) (e : Int) :
    ∀ c ∈ reprBody n e, isDig c = true ∨ c = '.' := by
  intro c hc
  have hdig := ndc_digits n
  unfold reprBody at hc
  by_cases he : 0 ≤ e
  · rw [if_pos he] at hc
    simp only [List.append_assoc, List.mem_append, List.mem_cons,
      List.mem_singleton, List.not_mem_nil, or_false] at hc
    rcases hc with h | h | h | h
    · exact Or.inl (hdig c h)
    · exact Or.inl (rep_zero_digit _ c h)
    · exact Or.inr h
    · subst h; exact Or.inl (by decide)
  · rw [if_neg he] at hc
    by_cases hlt : (-e).toNat < (natDigitChars n).length
    · rw [if_pos hlt] at hc
      simp only [List.mem_append, List.mem_cons] at hc
      rcases hc with h | h | h
      · exact Or.inl (hdig c (List.take_subset _ _ h))
      · exact Or.inr h
      · exact Or.inl (hdig c (List.drop_subset _ _ h))
    · rw [if_neg hlt] at hc
      simp only [List.mem_cons, List.mem_append] at hc
      rcases hc with h | h | h | h
      · subst h; exact Or.inl (by decide)
      · exact Or.inr h
      · exact Or.inl (rep_zero_digit _ c h)
      · exact Or.inl (hdig c h)

lemma reprBody_head (n : Nat) (e : Int) (hn : n ≠ 0) :
    ∃ c rest, reprBody n e = c :: rest ∧ isDig c = true := by
  obtain ⟨c, cs, hdigs⟩ : ∃ c cs, natDigitChars n = c :: cs := by
    cases hx : natDigitChars n with
    | nil => exact absurd hx (ndc_ne_nil n hn)
    | cons c cs => exact ⟨c, cs, rfl⟩
  have hc : isDig c = true := ndc_digits n c (by rw [hdigs]; exact List.mem_cons_self _ _)
  unfold reprBody
  by_cases he : 0 ≤ e
  · rw [if_pos he, hdigs]
    exact ⟨c, cs ++ List.replicate e.toNat '0' ++ '.' :: ['0'], rfl, hc⟩
  · by_cases hlt : (-e).toNat < (natDigitChars n).length
    · rw [if_neg he, if_pos hlt, hdigs]
      obtain ⟨j, hj⟩ : ∃ j, (c :: cs).length - (-e).toNat = j + 1 := by
        rw [hdigs] at hlt
        exact ⟨(c :: cs).length - (-e).toNat - 1, by simp only [List.length_cons] at *; omega⟩
      rw [hj, List.take_succ_cons]
      exact ⟨c, List.take j cs ++ '.' :: List.drop j cs, rfl, hc⟩
    · rw [if_neg he, if_neg hlt]
      exact ⟨'0', _, rfl, by decide⟩

lemma pyReprChars_mem (d : DecNum) :
    ∀ c ∈ pyReprChars d, isDig c = true ∨ c = '-' ∨ c = '.' := by
  intro c hc
  unfold pyReprChars at hc
  by_cases hm : d.man = 0
  · rw [if_pos hm] at hc
    simp only [List.mem_cons, List.not_mem_nil, or_false] at hc
    rcases hc with h | h | h
    · subst h; exact Or.inl (by decide)
    · subst h; exact Or.inr (Or.inr rfl)
    · subst h; exact Or.inl (by decide)
  · rw [if_neg hm] at hc
    by_cases hneg : d.man < 0
    · rw [if_pos hneg] at hc
      rcases List.mem_cons.mp hc with h | h
      · subst h; exact Or.inr (Or.inl rfl)
      · rcases reprBody_mem _ _ c h with h2 | h2
        · exact Or.inl h2
        · exact Or.inr (Or.inr h2)
    · rw [if_neg hneg] at hc
      rcases reprBody_mem _ _ c hc with h2 | h2
      · exact Or.inl h2
      · exact Or.inr (Or.inr h2)

lemma pyReprChars_strip (d : DecNum) : stripWsL (pyReprChars d) = pyReprChars d :=
  strip_id _ (fun c hc => by
    rcases pyReprChars_mem d c hc with h | h | h
    · exact isDig_not_ws h
    · subst h; decide
    · subst h; decide)

lemma pyReprChars_no_amp (d : DecNum) :
    (pyReprChars d).any (fun c => decide (c = '&')) = false := by
  cases hx : (pyReprChars d).any (fun c => decide (c = '&')) with
  | false => rfl
  | true =>
      obtain ⟨c, hc, hp⟩ := List.any_eq_true.mp hx
      have hamp : c = '&' := of_decide_eq_true hp
      subst hamp
      rcases pyReprChars_mem d '&' hc with h | h | h
      · exact absurd h (by decide)
      · exact absurd h (by decide)
      · exact absurd h (by decide)

lemma pyReprChars_no_comma (d : DecNum) : stripCommas (pyReprChars d) = pyReprChars d := by
  unfold stripCommas
  rw [List.filter_eq_self]
  intro c hc
  rcases pyReprChars_mem d c hc with h | h | h
  · exact decide_eq_true (isDig_ne_comma h)
  · subst h; decide
  · subst h; decide

lemma parse_repr (d : DecNum) (hfix : DecNum.norm d = d) :
    pyFloatChars (pyReprChars d) = some d := by
  by_cases hm : d.man = 0
  · have h0 := norm_fix_zero d hfix hm
    subst h0
    decide
  · have hnd := norm_fix_not_dvd d hfix hm
    have hn0 : d.man.natAbs ≠ 0 := Int.natAbs_ne_zero.mpr hm
    obtain ⟨k, hk⟩ := parse_reprBody d.man.natAbs d.exp hn0
    obtain ⟨c, rest, hhead, hcdig⟩ := reprBody_head d.man.natAbs d.exp hn0
    have hstrip := pyReprChars_strip d
    by_cases hneg : d.man < 0
    · have hrep : pyReprChars d = '-' :: reprBody d.man.natAbs d.exp := by
        unfold pyReprChars
        rw [if_neg hm, if_pos hneg]
      rw [hrep] at hstrip ⊢
      simp only [pyFloatChars, hstrip, List.head?_cons]
      rw [if_neg (by decide : ¬ ((some '-' : Option Char) = some '+'))]
      simp only [if_true]
      simp only [List.drop_succ_cons, List.drop_zero]
      rw [hk]
      simp only [Option.map_some']
      have hcast : -(((d.man.natAbs * 10 ^ k : Nat) : Int)) = d.man * 10 ^ k := by
        push_cast
        rw [abs_of_nonpos (le_of_lt hneg)]
        ring
      rw [hcast, norm_eq d.man k _ hm hnd]
      have hexp : d.exp - (k : Int) + (k : Int) = d.exp := by omega
      rw [hexp]
    · have hpos : 0 ≤ d.man := le_of_not_lt hneg
      have hrep : pyReprChars d = reprBody d.man.natAbs d.exp := by
        unfold pyReprChars
        rw [if_neg hm, if_neg hneg]
      rw [hrep] at hstrip ⊢
      simp only [pyFloatChars, hstrip]
      rw [hhead]
      simp only [List.head?_cons]
      rw [if_neg (by
          simp only [Option.some.injEq]
          exact isDig_ne_plus hcdig),
        if_neg (by
          simp only [Option.some.injEq]
          exact isDig_ne_minus hcdig)]
      rw [← hhead, hk]
      simp only [Option.map_some']
      have hcast : (((d.man.natAbs * 10 ^ k : Nat) : Int)) = d.man * 10 ^ k := by
        push_cast
        rw [abs_of_nonneg hpos]
      rw [hcast, norm_eq d.man k _ hm hnd]
      have hexp : d.exp - (k : Int) + (k : Int) = d.exp := by omega
      rw [hexp]

/-! ## Every value stored by the extractor is a normalised parse result -/

lemma mem_insKV {β : Type} (m : List (String × β)) (k : String) (v : β) (p : String × β)
    (hp : p ∈ insKV m k v) : p.2 = v ∨ p ∈ m := by
  unfold insKV at hp
  by_cases ha : m.any (fun q => decide (q.1 = k)) = true
  · rw [if_pos ha] at hp
    obtain ⟨q, hq, heq⟩ := List.mem_map.mp hp
    by_cases hqk : q.1 = k
    · rw [if_pos hqk] at heq
      left
      rw [← heq]
    · rw [if_neg hqk] at heq
      right
      rw [← heq]
      exact hq
  · rw [if_neg ha] at hp
    rcases List.mem_append.mp hp with h | h
    · right; exact h
    · left; rw [List.mem_singleton.mp h]

lemma processRow_norm (rules : List (String × String)) (m m2 : MetricsMap) (item : Row)
    (hm : ∀ p ∈ m, ∀ dd : DecNum, p.2 = some dd → DecNum.norm dd = dd)
    (hp : processRow rules m item = Except.ok m2) :
    ∀ p ∈ m2, ∀ dd : DecNum, p.2 = some dd → DecNum.norm dd = dd := by
  unfold processRow at hp
  cases hg0 : pyGet item 0 with
  | error e => simp only [hg0] at hp; exact Except.noConfusion hp
  | ok label =>
      simp only [hg0] at hp
      cases hfm : firstMatch rules (label.toList.map Char.toLower) with
      | none =>
          simp only [hfm] at hp
          cases hp
          exact hm
      | some key =>
          simp only [hfm] at hp
          cases hg2 : pyGet item 2 with
          | error e => simp only [hg2] at hp; exact Except.noConfusion hp
          | ok v =>
              simp only [hg2] at hp
              cases hp
              intro p hp2 dd hdd
              rcases mem_insKV m key (safe_float v) p hp2 with h | h
              · rw [h] at hdd
                exact safe_float_norm v dd hdd
              · exact hm p h dd hdd

lemma processTable_norm (rules : List (String × String)) :
    ∀ (t : Table) (m m2 : MetricsMap),
      (∀ p ∈ m, ∀ dd : DecNum, p.2 = some dd → DecNum.norm dd = dd) →
      processTable rules m t = Except.ok m2 →
      ∀ p ∈ m2, ∀ dd : DecNum, p.2 = some dd → DecNum.norm dd = dd := by
  intro t
  induction t with
  | nil =>
      intro m m2 hm hp
      cases hp
      exact hm
  | cons item rest ih =>
      intro m m2 hm hp
      unfold processTable at hp
      cases hr : processRow rules m item with
      | error e => simp only [hr] at hp; exact Except.noConfusion hp
      | ok mm =>
          simp only [hr] at hp
          exact ih mm m2 (processRow_norm rules m mm item hm hr) hp

lemma tableStep_norm (rules : List (String × String)) (tabs : Option (List Table))
    (idx : Nat) (m m2 : MetricsMap)
    (hm : ∀ p ∈ m, ∀ dd : DecNum, p.2 = some dd → DecNum.norm dd = dd)
    (hp : tableStep rules tabs idx m = Except.ok m2) :
    ∀ p ∈ m2, ∀ dd : DecNum, p.2 = some dd → DecNum.norm dd = dd := by
  unfold tableStep at hp
  cases tabs with
  | none =>
      cases hp
      exact hm
  | some ts =>
      cases hg : pyGet ts idx with
      | error e => simp only [hg] at hp; exact Except.noConfusion hp
      | ok t =>
          simp only [hg] at hp
          exact processTable_norm rules t m m2 hm hp

lemma extract_norm (data : List FinData) (m : MetricsMap)
    (hp : extract_important_metrics data = Except.ok m) :
    ∀ p ∈ m, ∀ dd : DecNum, p.2 = some dd → DecNum.norm dd = dd := by
  unfold extract_important_metrics at hp
  cases hg : pyGet data 0 with
  | error e => simp only [hg] at hp; exact Except.noConfusion hp
  | ok d0 =>
      simp only [hg] at hp
      cases h1 : tableStep liquidityRules d0.mda_liquidity_tables 0 [] with
      | error e => simp only [h1] at hp; exact Except.noConfusion hp
      | ok m1 =>
          simp only [h1] at hp
          cases h2 : tableStep balanceRules d0.after_mda_tables 0 m1 with
          | error e => simp only [h2] at hp; exact Except.noConfusion hp
          | ok mb =>
              simp only [h2] at hp
              cases h3 : tableStep incomeRules d0.after_mda_tables 1 mb with
              | error e => simp only [h3] at hp; exact Except.noConfusion hp
              | ok mc =>
                  simp only [h3] at hp
                  have i0 : ∀ p ∈ ([] : MetricsMap), ∀ dd : DecNum,
                      p.2 = some dd → DecNum.norm dd = dd :=
                    fun p hp2 => absurd hp2 (List.not_mem_nil p)
                  have i1 := tableStep_norm _ _ _ _ _ i0 h1
                  have i2 := tableStep_norm _ _ _ _ _ i1 h2
                  have i3 := tableStep_norm _ _ _ _ _ i2 h3
                  exact tableStep_norm _ _ _ _ _ i3 hp

/-! ## Claims -/

/-- C1 (counterexample): for the balance-sheet row
`["Total Assets", "", "$1,000,000"]` the extractor does NOT bind
`total_assets` to the float 1000000.0 — the dollar sign makes the value
unparseable, so the key is bound to the missing marker instead. -/
theorem claim_C1_counterexample :
    valueAt (extract_important_metrics
        [⟨none, some [[["Total Assets", "", "$1,000,000"]], [], []]⟩]) "total_assets"
      ≠ some (some ⟨1, 6⟩) ∧
    valueAt (extract_important_metrics
        [⟨none, some [[["Total Assets", "", "$1,000,000"]], [], []]⟩]) "total_assets"
      = some none := ⟨by decide, by decide⟩

/-- C1 (amended): for a balance-sheet table containing the row
`["Total Assets", "", "$1,000,000"]`, `extract_important_metrics` binds the
key `total_assets` to the missing marker `None`, because `safe_float` does
not strip currency symbols; with the dollar-free value cell `"1,000,000"`
the key is bound to the float 1000000.0. -/
theorem claim_C1 :
    extract_important_metrics
        [⟨none, some [[["Total Assets", "", "$1,000,000"]], [], []]⟩]
      = Except.ok [("total_assets", none)] ∧
    extract_important_metrics
        [⟨none, some [[["Total Assets", "", "1,000,000"]], [], []]⟩]
      = Except.ok [("total_assets", some ⟨1, 6⟩)] := ⟨by decide, by decide⟩

/-- C2: `safe_float` is total — every input yields either a value or the
missing marker `none`; `"N/A"` yields `none`; a candidate that fails float
conversion (or a missing post-ampersand segment) always yields `none`, never
a default; and any value returned is exactly the parse of the candidate, so
no silently wrong default (such as zero) can be produced. -/
theorem claim_C2 :
    (∀ s : String, safe_float s = none ∨ ∃ d, safe_float s = some d) ∧
    safe_float "N/A" = none ∧
    (∀ (s : String) (c : List Char), numCandidate s = some c →
      pyFloatChars c = none → safe_float s = none) ∧
    (∀ s : String, numCandidate s = none → safe_float s = none) ∧
    (∀ (s : String) (d : DecNum), safe_float s = some d →
      ∃ c, numCandidate s = some c ∧ pyFloatChars c = some d) := by
  refine ⟨?_, by decide, ?_, ?_, ?_⟩
  · intro s
    cases h : safe_float s with
    | none => exact Or.inl rfl
    | some d => exact Or.inr ⟨d, rfl⟩
  · intro s c hc hp
    rw [safe_float_eq_candidate, hc]
    exact hp
  · intro s hc
    rw [safe_float_eq_candidate, hc]
    rfl
  · intro s d hd
    rw [safe_float_eq_candidate] at hd
    exact Option.bind_eq_some.mp hd

/-- C2 (witness): the unparseable input `"abc"` yields the missing marker. -/
theorem claim_C2_witness : safe_float "abc" = none :=
  claim_C2.2.2.1 "abc" ['a', 'b', 'c'] (by decide) (by decide)

/-- C3 (counterexample): the claim's rule — take everything after the FIRST
ampersand as the candidate — disagrees with the code on `"1 & 2 & 3"`: the
code parses the field between the first and second ampersand and returns
2.0, while the claimed candidate `" 2 & 3"` is unparseable. -/
theorem claim_C3_counterexample :
    safe_float "1 & 2 & 3" = some ⟨2, 0⟩ ∧
    pyFloatChars (stripCommas (claimedAmpCandidate "1 & 2 & 3")) = none :=
  ⟨by decide, by decide⟩

/-- C3 (amended): for every input containing an ampersand, `safe_float`
takes field 1 of splitting on EVERY ampersand (the segment between the first
and second ampersand) as the numeric candidate, strips commas from it and
converts it to float; `safe_float "Level 2 & 5,000" = 5000.0` and
`safe_float "Level 2 &"` (empty segment after the ampersand) is the missing
marker. -/
theorem claim_C3 :
    (∀ s : String, s.toList.any (fun c => decide (c = '&')) = true →
      safe_float s =
        ((splitOnAmp s.toList).get? 1).bind (fun seg => pyFloatChars (stripCommas seg))) ∧
    safe_float "Level 2 & 5,000" = some ⟨5, 3⟩ ∧
    safe_float "Level 2 &" = none := by
  refine ⟨?_, by decide, by decide⟩
  intro s h
  unfold safe_float
  simp only [h, if_true]
  cases hg : (splitOnAmp s.toList).get? 1 <;> simp [hg]

/-- C3 (witness): the ampersand rule applied at the concrete input
`"a&b"`. -/
theorem claim_C3_witness :
    safe_float "a&b" =
      ((splitOnAmp "a&b".toList).get? 1).bind (fun seg => pyFloatChars (stripCommas seg)) :=
  claim_C3.1 "a&b" (by decide)

/-- C4: whenever the structured model call (or the parsing/formatting of its
reply, all folded into the opaque `call` outcome) fails, `extract_metrics`
returns exactly `fallback_extraction` of the same record; the underlying
call failure itself is swallowed — the caller sees only the fallback's
outcome. -/
theorem claim_C4 (response : Record) (msg : String) :
    extract_metrics response (Except.error msg) = fallback_extraction response := rfl

/-- C5 (counterexample): a fallback result whose `competitor` field is not a
string — the record's `Competitor Analysis` section is a list and
`fallback_extraction` stores it unchanged, so the two paths do not have
identical string-typed text fields. -/
theorem claim_C5_counterexample :
    fallback_extraction
        ⟨none, some (DetVal.dict [("Competitor Analysis", SecVal.vlist ["x"])]), none⟩
      = Except.ok
        [("metrics", PyV.vdict []),
         ("context", PyV.vsecdict [("Competitor Analysis", SecVal.vlist ["x"])]),
         ("competitor", PyV.vlistS ["x"]),
         ("contradictions", PyV.vstr ""),
         ("additional_context", PyV.vstr "")] ∧
    (match lookupKV
        [("metrics", PyV.vdict []),
         ("context", PyV.vsecdict [("Competitor Analysis", SecVal.vlist ["x"])]),
         ("competitor", PyV.vlistS ["x"]),
         ("contradictions", PyV.vstr ""),
         ("additional_context", PyV.vstr "")] "competitor" with
     | some (PyV.vstr _) => False
     | _ => True) :=
  ⟨rfl, trivial⟩

/-- C5 (amended): every dictionary either path produces has exactly the five
keys `metrics`, `context`, `competitor`, `contradictions`,
`additional_context` in that order, with `metrics` a string-to-string
mapping, `context` a section mapping and `additional_context` a string; on
the success path the remaining two fields are strings as well, but
`fallback_extraction` stores the raw `Competitor Analysis` /
`Contradictory Analysis` section values unchanged, so those two fields are
strings only when the sections are strings or absent. -/
theorem claim_C5 (resp : Record) :
    (∀ r : Reply,
      extract_metrics resp (Except.ok r) = Except.ok (formatReply r) ∧
      keysOf (formatReply r) =
        ["metrics", "context", "competitor", "contradictions", "additional_context"] ∧
      ∃ md ctx c1 c2 c3, formatReply r =
        [("metrics", PyV.vdict md), ("context", PyV.vsecdict ctx),
         ("competitor", PyV.vstr c1), ("contradictions", PyV.vstr c2),
         ("additional_context", PyV.vstr c3)]) ∧
    (∀ d : PyDict, fallback_extraction resp = Except.ok d →
      keysOf d =
        ["metrics", "context", "competitor", "contradictions", "additional_context"] ∧
      ∃ md ctx c1 c2 a, d =
        [("metrics", PyV.vdict md), ("context", PyV.vsecdict ctx),
         ("competitor", c1), ("contradictions", c2),
         ("additional_context", PyV.vstr a)]) ∧
    (∀ (entries : List (String × SecVal)) (d : PyDict),
      resp.detailedOutcome = some (DetVal.dict entries) →
      lookupKV entries "Financial Metrics" = none →
      fallback_extraction resp = Except.ok d →
      d = [("metrics", PyV.vdict []), ("context", PyV.vsecdict entries),
           ("competitor", sectionField entries "Competitor Analysis"),
           ("contradictions", sectionField entries "Contradictory Analysis"),
           ("additional_context", PyV.vstr (resp.additionalContext.getD ""))]) := by
  obtain ⟨sv, det, ac⟩ := resp
  refine ⟨?_, ?_, ?_⟩
  · intro r
    exact ⟨rfl, rfl, ⟨_, _, _, _, _, rfl⟩⟩
  · intro d hd
    cases det with
    | none =>
        rw [fallback_none_eq] at hd
        cases hd
        exact ⟨rfl, _, _, _, _, _, rfl⟩
    | some dv =>
        cases dv with
        | dict entries =>
            cases hf : financialMets
                ((lookupKV entries "Financial Metrics").getD (SecVal.vstr "")) with
            | error e =>
                cases e
                rw [fallback_dict_err_eq sv ac entries hf] at hd
                exact Except.noConfusion hd
            | ok mets =>
                rw [fallback_dict_ok_eq sv ac entries mets hf] at hd
                cases hd
                exact ⟨rfl, _, _, _, _, _, rfl⟩
        | nondict v =>
            rw [fallback_nondict_eq] at hd
            cases hd
            exact ⟨rfl, _, _, _, _, _, rfl⟩
  · intro entries d h hfm hd
    simp only at h
    subst h
    have hmets : financialMets
        ((lookupKV entries "Financial Metrics").getD (SecVal.vstr "")) = Except.ok [] := by
      rw [hfm]
      rfl
    rw [fallback_dict_ok_eq sv ac entries [] hmets] at hd
    cases hd
    rfl

/-- C5 (witness): a record whose sections are strings yields string-typed
text fields through the fallback path, with the section values stored at the
`competitor`/`contradictions` positions. -/
theorem claim_C5_witness :
    ([("metrics", PyV.vdict []),
      ("context", PyV.vsecdict [("Competitor Analysis", SecVal.vstr "acme")]),
      ("competitor", PyV.vstr "acme"),
      ("contradictions", PyV.vstr ""),
      ("additional_context", PyV.vstr "")] : PyDict) =
      [("metrics", PyV.vdict []),
       ("context", PyV.vsecdict [("Competitor Analysis", SecVal.vstr "acme")]),
       ("competitor", sectionField [("Competitor Analysis", SecVal.vstr "acme")] "Competitor Analysis"),
       ("contradictions", sectionField [("Competitor Analysis", SecVal.vstr "acme")] "Contradictory Analysis"),
       ("additional_context", PyV.vstr ((none : Option String).getD ""))] :=
  (claim_C5 ⟨none, some (DetVal.dict [("Competitor Analysis", SecVal.vstr "acme")]), none⟩).2.2
    [("Competitor Analysis", SecVal.vstr "acme")]
    [("metrics", PyV.vdict []),
     ("context", PyV.vsecdict [("Competitor Analysis", SecVal.vstr "acme")]),
     ("competitor", PyV.vstr "acme"),
     ("contradictions", PyV.vstr ""),
     ("additional_context", PyV.vstr "")]
    rfl (by decide) (by decide)

/-- C6 (counterexample): `fallback_extraction` is not exception-free — a
truthy non-string `Financial Metrics` section value (here a list) is handed
to `re.search`, which raises `TypeError`, uncaught. -/
theorem claim_C6_counterexample :
    fallback_extraction
        ⟨none, some (DetVal.dict [("Financial Metrics", SecVal.vlist ["x"])]), none⟩
      = Except.error RunErr.typeError := rfl

/-- C6 (amended): `fallback_extraction` makes no external calls (it is a
pure function by construction), and each absent input section defaults the
corresponding result field to an empty mapping or empty string; it never
raises except in one case: a present, truthy, non-string
`Financial Metrics` value is passed to `re.search`, which raises
`TypeError`.  For every record whose `Financial Metrics` section is absent,
falsy or a string — and for every record without a detailed-outcome
dictionary — it returns normally. -/
theorem claim_C6 (resp : Record) :
    (resp.detailedOutcome = none →
      fallback_extraction resp =
        Except.ok
          [("metrics", PyV.vdict []), ("context", PyV.vsecdict []),
           ("competitor", PyV.vstr ""), ("contradictions", PyV.vstr ""),
           ("additional_context", PyV.vstr (resp.additionalContext.getD ""))]) ∧
    (∀ entries, resp.detailedOutcome = some (DetVal.dict entries) →
      lookupKV entries "Financial Metrics" = none →
      ∃ c1 c2, fallback_extraction resp =
        Except.ok
          [("metrics", PyV.vdict []), ("context", PyV.vsecdict entries),
           ("competitor", c1), ("contradictions", c2),
           ("additional_context", PyV.vstr (resp.additionalContext.getD ""))]) ∧
    (∀ entries d, resp.detailedOutcome = some (DetVal.dict entries) →
      fallback_extraction resp = Except.ok d →
      lookupKV entries "Competitor Analysis" = none →
      ∃ md ctx c2 a, d =
        [("metrics", md), ("context", ctx), ("competitor", PyV.vstr ""),
         ("contradictions", c2), ("additional_context", a)]) ∧
    (∀ entries d, resp.detailedOutcome = some (DetVal.dict entries) →
      fallback_extraction resp = Except.ok d →
      lookupKV entries "Contradictory Analysis" = none →
      ∃ md ctx c1 a, d =
        [("metrics", md), ("context", ctx), ("competitor", c1),
         ("contradictions", PyV.vstr ""), ("additional_context", a)]) ∧
    (resp.additionalContext = none →
      ∀ d, fallback_extraction resp = Except.ok d →
      ∃ md ctx c1 c2, d =
        [("metrics", md), ("context", ctx), ("competitor", c1),
         ("contradictions", c2), ("additional_context", PyV.vstr "")]) ∧
    (∀ entries, resp.detailedOutcome = some (DetVal.dict entries) →
      (∀ v, lookupKV entries "Financial Metrics" = some v →
        SecVal.truthy v = false ∨ ∃ s, v = SecVal.vstr s) →
      ∃ d, fallback_extraction resp = Except.ok d) ∧
    (∀ v, resp.detailedOutcome = some (DetVal.nondict v) →
      fallback_extraction resp =
        Except.ok
          [("metrics", PyV.vdict []), ("context", PyV.vsecdict []),
           ("competitor", PyV.vstr ""), ("contradictions", PyV.vstr ""),
           ("additional_context", PyV.vstr (resp.additionalContext.getD ""))]) ∧
    (∀ entries v, resp.detailedOutcome = some (DetVal.dict entries) →
      lookupKV entries "Financial Metrics" = some v →
      SecVal.truthy v = true →
      (∀ s, ¬ v = SecVal.vstr s) →
      fallback_extraction resp = Except.error RunErr.typeError) := by
  obtain ⟨sv, det, ac⟩ := resp
  refine ⟨?_, ?_, ?_, ?_, ?_, ?_, ?_, ?_⟩
  · intro h
    simp only at h
    subst h
    exact fallback_none_eq sv ac
  · intro entries h hfm
    simp only at h
    subst h
    have hmets : financialMets
        ((lookupKV entries "Financial Metrics").getD (SecVal.vstr "")) = Except.ok [] := by
      rw [hfm]
      rfl
    exact ⟨_, _, fallback_dict_ok_eq sv ac entries [] hmets⟩
  · intro entries d h hd hcomp
    simp only at h
    subst h
    cases hf : financialMets
        ((lookupKV entries "Financial Metrics").getD (SecVal.vstr "")) with
    | error e =>
        cases e
        rw [fallback_dict_err_eq sv ac entries hf] at hd
        exact Except.noConfusion hd
    | ok mets =>
        rw [fallback_dict_ok_eq sv ac entries mets hf] at hd
        cases hd
        have hc : sectionField entries "Competitor Analysis" = PyV.vstr "" := by
          simp only [sectionField, hcomp]
        exact ⟨PyV.vdict mets, PyV.vsecdict entries,
          sectionField entries "Contradictory Analysis", PyV.vstr (ac.getD ""),
          by rw [hc]⟩
  · intro entries d h hd hcon
    simp only at h
    subst h
    cases hf : financialMets
        ((lookupKV entries "Financial Metrics").getD (SecVal.vstr "")) with
    | error e =>
        cases e
        rw [fallback_dict_err_eq sv ac entries hf] at hd
        exact Except.noConfusion hd
    | ok mets =>
        rw [fallback_dict_ok_eq sv ac entries mets hf] at hd
        cases hd
        have hc : sectionField entries "Contradictory Analysis" = PyV.vstr "" := by
          simp only [sectionField, hcon]
        exact ⟨PyV.vdict mets, PyV.vsecdict entries,
          sectionField entries "Competitor Analysis", PyV.vstr (ac.getD ""),
          by rw [hc]⟩
  · intro h d hd
    simp only at h
    subst h
    cases det with
    | none =>
        rw [fallback_none_eq] at hd
        cases hd
        exact ⟨_, _, _, _, rfl⟩
    | some dv =>
        cases dv with
        | dict entries =>
            cases hf : financialMets
                ((lookupKV entries "Financial Metrics").getD (SecVal.vstr "")) with
            | error e =>
                cases e
                rw [fallback_dict_err_eq sv none entries hf] at hd
                exact Except.noConfusion hd
            | ok mets =>
                rw [fallback_dict_ok_eq sv none entries mets hf] at hd
                cases hd
                exact ⟨_, _, _, _, rfl⟩
        | nondict v =>
            rw [fallback_nondict_eq] at hd
            cases hd
            exact ⟨_, _, _, _, rfl⟩
  · intro entries h hstr
    simp only at h
    subst h
    cases hl : lookupKV entries "Financial Metrics" with
    | none =>
        have hmets : financialMets
            ((lookupKV entries "Financial Metrics").getD (SecVal.vstr "")) = Except.ok [] := by
          rw [hl]
          rfl
        exact ⟨_, fallback_dict_ok_eq sv ac entries [] hmets⟩
    | some v =>
        obtain ⟨mets, hmets⟩ := fm_ok_of v (hstr v hl)
        have hmets2 : financialMets
            ((lookupKV entries "Financial Metrics").getD (SecVal.vstr ""))
            = Except.ok mets := by
          rw [hl]
          exact hmets
        exact ⟨_, fallback_dict_ok_eq sv ac entries mets hmets2⟩
  · intro v h
    simp only at h
    subst h
    exact fallback_nondict_eq sv ac v
  · intro entries v h hl ht hns
    simp only at h
    subst h
    have hmets : financialMets
        ((lookupKV entries "Financial Metrics").getD (SecVal.vstr ""))
        = Except.error RunErr.typeError := by
      rw [hl]
      exact fm_nonstr v ht hns
    exact fallback_dict_err_eq sv ac entries hmets

/-- C6 (witness): the empty record returns normally with the all-empty
result. -/
theorem claim_C6_witness :
    fallback_extraction ⟨none, none, none⟩ =
      Except.ok
        [("metrics", PyV.vdict []), ("context", PyV.vsecdict []),
         ("competitor", PyV.vstr ""), ("contradictions", PyV.vstr ""),
         ("additional_context", PyV.vstr "")] :=
  (claim_C6 ⟨none, none, none⟩).1 rfl

/-- C7: per row, the lower-cased label cell is tested against the table's
rules in declaration order and the normalized value cell is stored under the
canonical key of the first matching rule only; a row whose label matches no
rule (such as `"Footnote 3"`) contributes no key and causes no error. -/
theorem claim_C7 :
    (∀ (pre : List (String × String)) (pat key : String) (post : List (String × String))
        (m : MetricsMap) (item : Row) (label v : String),
      pyGet item 0 = Except.ok label →
      pyGet item 2 = Except.ok v →
      (∀ p ∈ pre, strContains (label.toList.map Char.toLower) p.1.toList = false) →
      strContains (label.toList.map Char.toLower) pat.toList = true →
      processRow (pre ++ (pat, key) :: post) m item =
        Except.ok (insKV m key (safe_float v))) ∧
    (∀ (rules : List (String × String)) (m : MetricsMap) (item : Row) (label : String),
      pyGet item 0 = Except.ok label →
      (∀ p ∈ rules, strContains (label.toList.map Char.toLower) p.1.toList = false) →
      processRow rules m item = Except.ok m) ∧
    processRow balanceRules [] ["Footnote 3", "", "100"] = Except.ok [] := by
  refine ⟨?_, ?_, by decide⟩
  · intro pre pat key post m item label v h0 h2 hpre hpat
    simp only [processRow, h0]
    rw [firstMatch_append_of_none pre ((pat, key) :: post) (label.toList.map Char.toLower) hpre]
    simp only [firstMatch]
    rw [if_pos hpat]
    simp only [h2]
  · intro rules m item label h0 hall
    simp only [processRow, h0,
      firstMatch_of_all_none rules (label.toList.map Char.toLower) hall]

/-- C7 (witness): the row `["Total Assets", "", "123"]` is matched by the
second balance-sheet rule (the first, `"total current assets"`, does not
apply) and stored under `total_assets`. -/
theorem claim_C7_witness :
    processRow balanceRules [] ["Total Assets", "", "123"] =
      Except.ok (insKV [] "total_assets" (safe_float "123")) :=
  claim_C7.1 [("total current assets", "current_assets")] "total assets" "total_assets"
    [("total current liabilities", "current_liabilities"),
     ("total liabilities", "total_liabilities"),
     ("total stockholders equity", "total_stockholders_equity"),
     ("cash and cash equivalents", "cash_and_cash_equivalents"),
     ("inventories", "inventory"),
     ("accounts receivable", "accounts_receivable"),
     ("accounts payable", "accounts_payable"),
     ("goodwill", "goodwill"),
     ("intangible assets net", "intangible_assets"),
     ("long-term debt net of current portion", "long_term_debt")]
    [] ["Total Assets", "", "123"] "Total Assets" "123"
    rfl rfl (by decide) (by decide)

/-- C8 (counterexample): when `after_mda_tables` is present but holds no
tables, the extractor raises `IndexError` instead of skipping the absent
tables — the claim's "absent table in the sequence is skipped" part fails. -/
theorem claim_C8_counterexample :
    extract_important_metrics [⟨none, some []⟩] = Except.error PyErr.indexError := by decide

/-- C8 (amended): an absent KEY causes exactly its own portion to be
skipped: with both keys absent the extractor returns the empty MetricsMap
without raising; with `mda_liquidity_tables` absent the result is computed
from the three `after_mda_tables` sections alone, and with
`after_mda_tables` absent it is computed from the liquidity section alone.
But a table absent from the sequence under a PRESENT key is not skipped:
`mda_liquidity_tables` present and empty raises `IndexError`, and
`after_mda_tables` present with any fewer than three tables always raises
`IndexError`. -/
theorem claim_C8 :
    (∀ d : FinData, d.mda_liquidity_tables = none → d.after_mda_tables = none →
      extract_important_metrics [d] = Except.ok []) ∧
    (∀ ts : List Table,
      extract_important_metrics [⟨none, some ts⟩] =
        (match tableStep balanceRules (some ts) 0 [] with
         | Except.error e => Except.error e
         | Except.ok mb =>
             match tableStep incomeRules (some ts) 1 mb with
             | Except.error e => Except.error e
             | Except.ok mc => tableStep cashFlowRules (some ts) 2 mc)) ∧
    (∀ liq : List Table,
      extract_important_metrics [⟨some liq, none⟩] =
        tableStep liquidityRules (some liq) 0 []) ∧
    extract_important_metrics [⟨some [], none⟩] = Except.error PyErr.indexError ∧
    (∀ ts : List Table, ts.length < 3 →
      extract_important_metrics [⟨none, some ts⟩] = Except.error PyErr.indexError) := by
  refine ⟨?_, ?_, ?_, by decide, ?_⟩
  · intro d h1 h2
    obtain ⟨f1, f2⟩ := d
    simp only at h1 h2
    subst h1
    subst h2
    rfl
  · intro ts
    rfl
  · intro liq
    have hred : extract_important_metrics [⟨some liq, none⟩] =
        (match tableStep liquidityRules (some liq) 0 [] with
         | Except.error e => Except.error e
         | Except.ok m1 => Except.ok m1) := rfl
    rw [hred]
    cases tableStep liquidityRules (some liq) 0 [] <;> rfl
  · intro ts hlen
    cases ts with
    | nil => decide
    | cons t1 ts2 =>
        cases ts2 with
        | nil =>
            have hred : extract_important_metrics [⟨none, some [t1]⟩] =
                (match tableStep balanceRules (some [t1]) 0 [] with
                 | Except.error e => Except.error e
                 | Except.ok _ => Except.error PyErr.indexError) := rfl
            rw [hred]
            cases h1 : tableStep balanceRules (some [t1]) 0 [] with
            | error e => cases e; rfl
            | ok mb => rfl
        | cons t2 ts3 =>
            cases ts3 with
            | nil =>
                have hred : extract_important_metrics [⟨none, some [t1, t2]⟩] =
                    (match tableStep balanceRules (some [t1, t2]) 0 [] with
                     | Except.error e => Except.error e
                     | Except.ok mb =>
                         match tableStep incomeRules (some [t1, t2]) 1 mb with
                         | Except.error e => Except.error e
                         | Except.ok mc =>
                             tableStep cashFlowRules (some [t1, t2]) 2 mc) := rfl
                rw [hred]
                cases h1 : tableStep balanceRules (some [t1, t2]) 0 [] with
                | error e => cases e; rfl
                | ok mb =>
                    show (match tableStep incomeRules (some [t1, t2]) 1 mb with
                          | Except.error e => Except.error e
                          | Except.ok mc =>
                              tableStep cashFlowRules (some [t1, t2]) 2 mc)
                        = Except.error PyErr.indexError
                    cases h2 : tableStep incomeRules (some [t1, t2]) 1 mb with
                    | error e => cases e; rfl
                    | ok mc => rfl
            | cons t3 ts4 =>
                exfalso
                simp only [List.length_cons] at hlen
                omega

/-- C8 (witness): a record missing both table keys yields the empty metrics
map without raising, and a present `after_mda_tables` holding a single table
raises `IndexError`. -/
theorem claim_C8_witness :
    extract_important_metrics [⟨none, none⟩] = Except.ok [] ∧
    extract_important_metrics [⟨none, some [[]]⟩] = Except.error PyErr.indexError :=
  ⟨claim_C8.1 ⟨none, none⟩ rfl rfl, claim_C8.2.2.2.2 [[]] (by decide)⟩

/-- C9: round-trip — for every float value stored in an
`extract_important_metrics` result, applying `safe_float` to the stringified
form of that value yields the same float back. -/
theorem claim_C9 (data : List FinData) (k : String) (d : DecNum)
    (h : valueAt (extract_important_metrics data) k = some (some d)) :
    safe_float (pyReprStr d) = some d := by
  have hfix : DecNum.norm d = d := by
    unfold valueAt at h
    cases hr : extract_important_metrics data with
    | error e => simp only [hr] at h; exact Option.noConfusion h
    | ok m =>
        simp only [hr] at h
        unfold lookupKV at h
        obtain ⟨p, hfind, hp2⟩ := Option.map_eq_some'.mp h
        exact extract_norm data m hr p (List.mem_of_find?_eq_some hfind) d hp2
  rw [safe_float_eq_candidate]
  simp only [numCandidate]
  rw [show (pyReprStr d).toList = pyReprChars d from rfl]
  rw [if_neg (by rw [pyReprChars_no_amp d]; exact Bool.false_ne_true)]
  show pyFloatChars (stripCommas (pyReprChars d)) = some d
  rw [pyReprChars_no_comma d]
  exact parse_repr d hfix

/-- C9 (witness): the value 1.5 stored under `trade_names` re-parses from its
printed form `"1.5"` to itself. -/
theorem claim_C9_witness :
    valueAt (extract_important_metrics [⟨some [[["Trade names", "", "1.5"]]], none⟩])
        "trade_names" = some (some ⟨15, -1⟩) ∧
    safe_float (pyReprStr ⟨15, -1⟩) = some ⟨15, -1⟩ :=
  ⟨by decide,
   claim_C9 [⟨some [[["Trade names", "", "1.5"]]], none⟩] "trade_names" ⟨15, -1⟩ (by decide)⟩

/-- C10: a later row matching the same rule silently overwrites the earlier
stored value — dictionary assignment replaces in place, keeping no record of
the earlier value — so two `goodwill`-matching rows leave only the last
row's value in the metrics map. -/
theorem claim_C10 :
    (∀ (m : MetricsMap) (k : String) (v1 v2 : Option DecNum),
      insKV (insKV m k v1) k v2 = insKV m k v2) ∧
    extract_important_metrics
        [⟨none, some [[["Goodwill", "", "5"], ["Goodwill and other", "", "7"]], [], []]⟩]
      = Except.ok [("goodwill", some ⟨7, 0⟩)] :=
  ⟨fun m k v1 v2 => insKV_override m k v1 v2, by decide⟩

end FinRep
